import Mathlib

set_option maxRecDepth 8000
set_option linter.dupNamespace false

namespace Cxo

/-- Content hash (cipher.SHA256 of the skycoin cipher collaborator), modelled
abstractly as a natural number; 0 stands for the zero hash `cipher.SHA256{}`. -/
abbrev Hash := Nat

/-- Byte strings (Go `[]byte`); a Go nil slice is modelled as the empty list. -/
abbrev Bytes := List Nat

/-- data.DB: the flat key-to-payload table (`map[cipher.SHA256][]byte`), made
generic in the payload type so that the same table serves the raw byte store
and the decoded skyobject payload view used by the resolver. -/
abbrev DB (α : Type) := Hash → Option α

/-- data.NewDB: the empty table. -/
def NewDB {α : Type} : DB α := fun _ => none

/-- data.DB.Get: `v, ok = d.data[key]`, the (value, ok) pair as an Option.  The
table is also passed back out (state passing), because the Go method body only
reads `d.data`; threading it makes the read-only claims about the resolver
expressible. -/
def DB.GetS {α : Type} (d : DB α) (key : Hash) : Option α × DB α :=
  (d key, d)

/-- data.DB.Has / data.DB.has. -/
def DB.Has {α : Type} (d : DB α) (key : Hash) : Bool :=
  (d key).isSome

/-- Error values of the data and skyobject packages (Go `error` values; codec
failures of the external encoder collaborator are collapsed into one case). -/
inductive Err where
  | missingRoot
  | unexpectedHrefTag
  | missingSchemaName
  | invalidSchemaTag (p : String)
  | unregisteredSchema (name : String)
  | deserializeError
  | keyAlreadyPresent (key : Hash)
deriving DecidableEq

/-- data.DB.Update: stores data under its content hash `createKey(data)`
(`cipher.SumSHA256`, an external collaborator, passed here as H).  The panic on
a zero key or nil data is modelled as `none`. -/
def DB.Update (H : Bytes → Hash) (d : DB Bytes) (data : Bytes) :
    Option (Hash × DB Bytes) :=
  let key := H data
  if key = 0 ∨ data = [] then none
  else some (key, fun k => if k = key then some data else d k)

/-- data.DB.Add: insert-if-absent; returns the `key already present` error
(state untouched) when the key is taken.  The panic on a zero key or nil value
is modelled as `none`. -/
def DB.Add (d : DB Bytes) (key : Hash) (value : Bytes) :
    Option (Option Err × DB Bytes) :=
  if key = 0 ∨ value = [] then none
  else if DB.Has d key then some (some (Err.keyAlreadyPresent key), d)
  else some (none, fun k => if k = key then some value else d k)

/-- encoder.StructField of the external codec: field name, type name and the
value of its `skyobject:"..."` tag (reflect.StructTag.Get of the Go standard
library is modelled as direct access to the extracted value). -/
structure StructField where
  Name : String
  «Type» : String
  Tag : String
deriving DecidableEq

/-- Modelled from the spec: a Schema is a name plus an ordered field list; the
skyobject.Schema declaration itself lies outside the given sources and only its
Fields list is consumed by container.go. -/
structure Schema where
  Name : String
  Fields : List StructField
deriving DecidableEq

/-- skyobject.DynamicHref: the inline (schema, object) reference pair consumed
by Container.want; declared outside the given sources, fields as used there. -/
structure DynamicHref where
  Schema : Hash
  ObjKey : Hash
deriving DecidableEq

/-- Decoded view of a stored payload, standing for the external serialization
codec's contract: a payload either decodes as a Schema, or is an object whose
named fields yield plain / array / dynamic reference values (or nothing, when
the bytes do not fit the requested field type). -/
inductive FieldValue where
  | plain (h : Hash)
  | arr (hs : List Hash)
  | dyn (dh : DynamicHref)
deriving DecidableEq

/-- A stored payload as the codec sees it. -/
inductive Data where
  | schemaData (s : Schema)
  | objData (fields : List (String × FieldValue))
deriving DecidableEq

/-- Modelled from the spec: skyobject.Root — {schema hash, object hash, name
registry, timestamp}; declared outside the given sources, fields exactly as
used by container.go (Time, Schema, Root, registry). -/
structure Root where
  Time : Int
  Schema : Hash
  Root : Hash
  registry : List (String × Hash)

/-- skyobject.Container: a database reference plus at most one current root. -/
structure Container where
  db : DB Data
  root : Option Root

/-- encoder.DeserializeRaw into a Schema: succeeds exactly on payloads that are
valid encoded schemas. -/
def deserializeRawSchema (d : Data) : Option Schema :=
  match d with
  | .schemaData s => some s
  | .objData _ => none

/-- Value of a named field of an object payload, if any. -/
def lookupFieldValue (objd : Data) (name : String) : Option FieldValue :=
  match objd with
  | .schemaData _ => none
  | .objData fields => List.lookup name fields

/-- encoder.DeserializeField into a cipher.SHA256: fails unless the named field
of the object bytes holds a plain hash. -/
def deserializeFieldHash (objd : Data) (name : String) : Option Hash :=
  match lookupFieldValue objd name with
  | some (.plain h) => some h
  | _ => none

/-- encoder.DeserializeField into a []cipher.SHA256. -/
def deserializeFieldHashArray (objd : Data) (name : String) : Option (List Hash) :=
  match lookupFieldValue objd name with
  | some (.arr hs) => some hs
  | _ => none

/-- encoder.DeserializeField into a DynamicHref. -/
def deserializeFieldDynamic (objd : Data) (name : String) : Option DynamicHref :=
  match lookupFieldValue objd name with
  | some (.dyn dh) => some dh
  | _ => none

/-- strings.Split with a one-character separator (the tag syntax only splits on
"," and "="), structurally recursive so that concrete runs reduce. -/
def splitChar (sep : Char) : List Char → List (List Char)
  | [] => [[]]
  | c :: cs =>
    if c = sep then [] :: splitChar sep cs
    else
      match splitChar sep cs with
      | [] => [[c]]
      | chunk :: rest => (c :: chunk) :: rest

/-- strings.Contains: substring occurrence. -/
def containsSub (pat : List Char) : List Char → Bool
  | [] => List.isPrefixOf pat []
  | c :: cs => List.isPrefixOf pat (c :: cs) || containsSub pat cs

/-- strings.Contains on strings. -/
def strContains (s pat : String) : Bool :=
  containsSub pat.data s.data

/-- Modelled from the spec: the three type-name strings compared by the
resolver's switch (typeName of cipher.SHA256, []cipher.SHA256 and DynamicHref
is computed outside the given sources; all that matters is that the three
names are distinct). -/
def hrefTypeName : String := "cipher.SHA256"

def hrefArrayTypeName : String := "[]cipher.SHA256"

def dynamicHrefTypeName : String := "skyobject.DynamicHref"

/-- skyobjectTag: value of the field's `skyobject:"..."` tag. -/
def skyobjectTag (sf : StructField) : String := sf.Tag

/-- Loop body of tagSchemaName over the comma-separated tag tokens: the first
token with prefix `schema=` is split on "="; exactly two parts yield the name
(possibly empty) and anything else is an invalid-tag error; a completed loop
reports the missing schema name. -/
def tagSchemaNameLoop : List String → Except Err String
  | [] => Except.error Err.missingSchemaName
  | p :: rest =>
    if List.isPrefixOf "schema=".data p.data then
      match splitChar '=' p.data with
      | [_, v] => Except.ok ⟨v⟩
      | _ => Except.error (Err.invalidSchemaTag p)
    else tagSchemaNameLoop rest

/-- tagSchemaName (container.go lines 239-255). -/
def tagSchemaName (tag : String) : Except Err String :=
  tagSchemaNameLoop ((splitChar ',' tag.data).map fun l => ⟨l⟩)

/-- Container.schemaByTag (container.go lines 259-275). -/
def Container.schemaByTag (c : Container) (tag : String) : Except Err Hash :=
  match tagSchemaName tag with
  | Except.error e => Except.error e
  | Except.ok schemaName =>
    match c.root with
    | none => Except.error Err.missingRoot
    | some r =>
      match List.lookup schemaName r.registry with
      | none => Except.error (Err.unregisteredSchema schemaName)
      | some s => Except.ok s

/-- The want-set: keys of the Go `map[cipher.SHA256]struct{}`. -/
abbrev WantSet := Finset Hash

/-- The Go return pair (want map, error); a nil map is `none`, a made map is
`some`. -/
abbrev WantRes := Option WantSet × Option Err

/-- Shape of the recursive want call threaded through the field loop. -/
abbrev WantStep := Container → Hash → Hash → Option (WantRes × Container)

/-- mergeMaps: adds appention's keys to dst. -/
def mergeMaps (dst appention : WantSet) : WantSet := dst ∪ appention

/-- Container.addMissing (container.go lines 220-229): append each key that is
absent from the db. -/
def Container.addMissing : Container → WantSet → List Hash → WantSet × Container
  | c, w, [] => (w, c)
  | c, w, key :: rest =>
    match DB.GetS c.db key with
    | (some _, db') => Container.addMissing { c with db := db' } w rest
    | (none, db') => Container.addMissing { c with db := db' } (insert key w) rest

/-- Per-element loop of the []cipher.SHA256 case of Container.want; `rec` is
the recursive want call (one fuel step lower); an element's failure is the
parent's `goto Error`, which nils the map. -/
def wantArrayLoop (rec : WantStep) (schk : Hash) :
    Container → List Hash → WantSet → Option (WantRes × Container)
  | c, [], acc => some ((some acc, none), c)
  | c, ref :: rest, acc =>
    match rec c schk ref with
    | none => none
    | some ((_, some e), c') => some ((none, some e), c')
    | some ((w, none), c') =>
      wantArrayLoop rec schk c' rest (mergeMaps acc (w.getD ∅))

/-- Field loop of Container.want (container.go lines 148-205): every field
whose tag contains "href" is switched on its type name; extraction, tag
resolution or nested failures return (nil, err) — the `Error:` label. -/
def wantFields (rec : WantStep) (objd : Data) :
    Container → List StructField → WantSet → Option (WantRes × Container)
  | c, [], acc => some ((some acc, none), c)
  | c, sf :: rest, acc =>
    if strContains (skyobjectTag sf) "href" = false then
      wantFields rec objd c rest acc
    else if sf.«Type» = hrefTypeName then
      match deserializeFieldHash objd sf.Name with
      | none => some ((none, some Err.deserializeError), c)
      | some ref =>
        match Container.schemaByTag c (skyobjectTag sf) with
        | Except.error e => some ((none, some e), c)
        | Except.ok schk =>
          match rec c schk ref with
          | none => none
          | some ((_, some e), c') => some ((none, some e), c')
          | some ((w, none), c') =>
            wantFields rec objd c' rest (mergeMaps acc (w.getD ∅))
    else if sf.«Type» = hrefArrayTypeName then
      match deserializeFieldHashArray objd sf.Name with
      | none => some ((none, some Err.deserializeError), c)
      | some refs =>
        match Container.schemaByTag c (skyobjectTag sf) with
        | Except.error e => some ((none, some e), c)
        | Except.ok schk =>
          match wantArrayLoop rec schk c refs acc with
          | none => none
          | some ((_, some e), c') => some ((none, some e), c')
          | some ((w, none), c') => wantFields rec objd c' rest (w.getD ∅)
    else if sf.«Type» = dynamicHrefTypeName then
      match deserializeFieldDynamic objd sf.Name with
      | none => some ((none, some Err.deserializeError), c)
      | some dh =>
        match rec c dh.Schema dh.ObjKey with
        | none => none
        | some ((_, some e), c') => some ((none, some e), c')
        | some ((w, none), c') =>
          wantFields rec objd c' rest (mergeMaps acc (w.getD ∅))
    else
      some ((none, some Err.unexpectedHrefTag), c)

/-- Container.want (container.go lines 120-210), with a fuel bound standing in
for the unbounded Go recursion: `none` is fuel exhaustion (the Go code can
diverge on cyclic graphs), `some ((w, e), c)` is the Go return (want map w,
error e) together with the container state the run leaves behind. -/
def Container.want : Nat → Container → Hash → Hash → Option (WantRes × Container)
  | 0, _, _, _ => none
  | fuel + 1, c, schk, objk =>
    match DB.GetS c.db schk with
    | (none, db') =>
      let c1 : Container := { c with db := db' }
      let r := Container.addMissing c1 (insert schk (∅ : WantSet)) [objk]
      some ((some r.1, none), r.2)
    | (some schd, db') =>
      let c1 : Container := { c with db := db' }
      match DB.GetS c1.db objk with
      | (none, db2) =>
        some ((some (insert objk (∅ : WantSet)), none), { c1 with db := db2 })
      | (some objd, db2) =>
        let c2 : Container := { c1 with db := db2 }
        match deserializeRawSchema schd with
        | none => some ((some (∅ : WantSet), some Err.deserializeError), c2)
        | some s => wantFields (Container.want fuel) objd c2 s.Fields ∅

/-- Container.Want (container.go lines 113-118): a nil root yields the
zero-valued named returns — a nil want map and a nil error. -/
def Container.Want (fuel : Nat) (c : Container) : Option (WantRes × Container) :=
  match c.root with
  | none => some ((none, none), c)
  | some r => Container.want fuel c r.Schema r.Root

/-- Container.SetRoot (container.go lines 67-79): `none` models the panic on a
nil argument; otherwise the held root is replaced iff none is held or the
candidate's Time is strictly greater, returning whether replacement happened. -/
def Container.SetRoot (c : Container) (root : Option Root) : Option (Container × Bool) :=
  match root with
  | none => none
  | some root =>
    match c.root with
    | none => some ({ c with root := some root }, true)
    | some held =>
      if held.Time < root.Time then some ({ c with root := some root }, true)
      else some (c, false)

/-- One SetRoot step on a non-nil candidate, keeping only the container. -/
def setRoot1 (c : Container) (r : Root) : Container :=
  match Container.SetRoot c (some r) with
  | some p => p.1
  | none => c

/-- A sequence of SetRoot calls on non-nil candidates. -/
def applyRoots (c : Container) (rs : List Root) : Container :=
  rs.foldl setRoot1 c

/-- Modelled from the spec: element loop of the array case of the predicate
`fullGraphPresent` below. -/
def fullArrayLoop (rec : Container → Hash → Hash → Option Bool)
    (c : Container) (schk : Hash) : List Hash → Option Bool
  | [] => some true
  | ref :: rest =>
    match rec c schk ref with
    | none => none
    | some false => some false
    | some true => fullArrayLoop rec c schk rest

/-- Modelled from the spec: field loop of `fullGraphPresent` below. -/
def fullFields (rec : Container → Hash → Hash → Option Bool)
    (c : Container) (objd : Data) : List StructField → Option Bool
  | [] => some true
  | sf :: rest =>
    if strContains (skyobjectTag sf) "href" = false then
      fullFields rec c objd rest
    else if sf.«Type» = hrefTypeName then
      match deserializeFieldHash objd sf.Name, Container.schemaByTag c (skyobjectTag sf) with
      | some ref, Except.ok schk =>
        match rec c schk ref with
        | none => none
        | some false => some false
        | some true => fullFields rec c objd rest
      | _, _ => some false
    else if sf.«Type» = hrefArrayTypeName then
      match deserializeFieldHashArray objd sf.Name, Container.schemaByTag c (skyobjectTag sf) with
      | some refs, Except.ok schk =>
        match fullArrayLoop rec c schk refs with
        | none => none
        | some false => some false
        | some true => fullFields rec c objd rest
      | _, _ => some false
    else if sf.«Type» = dynamicHrefTypeName then
      match deserializeFieldDynamic objd sf.Name with
      | some dh =>
        match rec c dh.Schema dh.ObjKey with
        | none => none
        | some false => some false
        | some true => fullFields rec c objd rest
      | none => some false
    else some false

/-- Modelled from the spec: the hypothesis of want-completeness — starting from
(schk, objk), every reachable hash (schemas and objects, through Plain, Array
and Dynamic references) is present in the store and the walk is introspectable
(schemas decode, fields extract, tags resolve); `none` is fuel exhaustion. -/
def Container.fullGraphPresent : Nat → Container → Hash → Hash → Option Bool
  | 0, _, _, _ => none
  | fuel + 1, c, schk, objk =>
    match c.db schk with
    | none => some false
    | some schd =>
      match c.db objk with
      | none => some false
      | some objd =>
        match deserializeRawSchema schd with
        | none => some false
        | some s => fullFields (Container.fullGraphPresent fuel) c objd s.Fields


/-- Empty container: empty database, no root. -/
def cW : Container := ⟨NewDB, none⟩

/-- Container with no root (top-level Want zero-return scenario). -/
def cNoRoot : Container := ⟨NewDB, none⟩

/-- Store whose schema entry (key 1) holds bytes that fail to deserialize as a
Schema while the object entry (key 2) is present. -/
def dbBug : DB Data := fun k =>
  if k = 1 then some (Data.objData [])
  else if k = 2 then some (Data.objData []) else none

def cBug : Container := ⟨dbBug, none⟩

/-- Schema S1 (key 1): one Plain reference field tagged href,schema=s2. -/
def schemaS1 : Data := Data.schemaData ⟨"Obj1", [⟨"Ref", hrefTypeName, "href,schema=s2"⟩]⟩

/-- Object O1 (key 2): its Ref field points at O2 (key 4). -/
def objO1 : Data := Data.objData [("Ref", FieldValue.plain 4)]

/-- Schema S2 (key 3): no reference fields. -/
def schemaS2 : Data := Data.schemaData ⟨"Obj2", []⟩

/-- Object O2 (key 4): no fields. -/
def objO2 : Data := Data.objData []

/-- Scenario store holding S1, O1, S2 but not O2. -/
def dbC3a : DB Data := fun k =>
  if k = 1 then some schemaS1
  else if k = 2 then some objO1
  else if k = 3 then some schemaS2
  else none

/-- Scenario store after O2 is inserted. -/
def dbC3b : DB Data := fun k => if k = 4 then some objO2 else dbC3a k

/-- Scenario root: schema S1, object O1, registry maps "s2" to S2. -/
def rootC3 : Root := ⟨10, 1, 2, [("s2", 3)]⟩

def c3a : Container := ⟨dbC3a, some rootC3⟩

def c3b : Container := ⟨dbC3b, some rootC3⟩

/-- Container holding a root with an empty registry. -/
def cTagW : Container := ⟨NewDB, some ⟨0, 0, 0, []⟩⟩

/-- Byte store with key 1 taken. -/
def dbC6 : DB Bytes := fun k => if k = 1 then some [9] else none

/-- Claim C5: store round-trip — for every non-nil byte string b (a nil slice
is modelled as []) whose hash is non-zero, Update(b) returns the key H(b),
stores b under that key, and a subsequent Get(H(b)) returns (b, found). -/
theorem c5_store_roundtrip (H : Bytes → Hash) (d : DB Bytes) (b : Bytes)
    (h1 : b ≠ []) (h2 : H b ≠ 0) :
    ∃ d2, DB.Update H d b = some (H b, d2) ∧ d2 (H b) = some b ∧
      (DB.GetS d2 (H b)).1 = some b := by
  refine ⟨fun k => if k = H b then some b else d k, ?_, ?_, ?_⟩
  · simp [DB.Update, h1, h2]
  · simp
  · simp [DB.GetS]

theorem c5_store_roundtrip_witness :
    ∃ d2, DB.Update (fun _ => 1) NewDB [0] = some (1, d2) ∧ d2 1 = some [0] ∧
      (DB.GetS d2 1).1 = some [0] :=
  c5_store_roundtrip (fun _ => 1) NewDB [0] (by decide) (by decide)

/-- Claim C6: atomicity of Add — with key k already present holding b1,
Add(k, b2) fails with the key-already-present error and returns the store
unchanged (so the payload under k remains b1); with k absent, Add(k, b)
succeeds, inserts b under k and changes no other key. -/
theorem c6_add_atomic :
    (∀ (d : DB Bytes) (k : Hash) (b1 b2 : Bytes), k ≠ 0 → b2 ≠ [] →
      d k = some b1 → DB.Add d k b2 = some (some (Err.keyAlreadyPresent k), d)) ∧
    (∀ (d : DB Bytes) (k : Hash) (b : Bytes), k ≠ 0 → b ≠ [] → d k = none →
      ∃ d2, DB.Add d k b = some (none, d2) ∧ d2 k = some b ∧
        ∀ x, x ≠ k → d2 x = d x) := by
  constructor
  · intro d k b1 b2 hk hb hd
    simp [DB.Add, DB.Has, hk, hb, hd]
  · intro d k b hk hb hd
    refine ⟨fun x => if x = k then some b else d x, ?_, ?_, ?_⟩
    · simp [DB.Add, DB.Has, hk, hb, hd]
    · simp
    · intro x hx
      simp [hx]

theorem c6_add_atomic_witness :
    DB.Add dbC6 1 [8] = some (some (Err.keyAlreadyPresent 1), dbC6) :=
  c6_add_atomic.1 dbC6 1 [9] [8] (by decide) (by decide) rfl

/-- Claim C7: idempotence of Update — a second Update with identical valid b
returns the same key and leaves the table pointwise exactly as it was after
the first call. -/
theorem c7_update_idempotent (H : Bytes → Hash) (d : DB Bytes) (b : Bytes)
    (h1 : b ≠ []) (h2 : H b ≠ 0) :
    ∀ k d1, DB.Update H d b = some (k, d1) →
      ∃ d2, DB.Update H d1 b = some (k, d2) ∧ ∀ x, d2 x = d1 x := by
  intro k d1 hu
  simp only [DB.Update, h1, h2] at hu
  rw [if_neg (by simp [h1, h2])] at hu
  have hk : H b = k := (Prod.mk.injEq _ _ _ _ ▸ Option.some.inj hu).1
  have hd1 : (fun x => if x = H b then some b else d x) = d1 :=
    (Prod.mk.injEq _ _ _ _ ▸ Option.some.inj hu).2
  refine ⟨fun x => if x = H b then some b else d1 x, ?_, ?_⟩
  · rw [DB.Update]
    rw [if_neg (by simp [h1, h2])]
    rw [hk]
  · intro x
    by_cases hx : x = H b
    · subst hx
      rw [← hd1]
      simp
    · simp [hx]

theorem c7_update_idempotent_witness :
    ∃ d2, DB.Update (fun _ => 1) (fun k => if k = 1 then some [0] else none) [0] =
        some (1, d2) ∧ ∀ x, d2 x = (fun k => if k = 1 then some ([0] : Bytes) else none) x :=
  c7_update_idempotent (fun _ => 1) NewDB [0] (by decide) (by decide) 1
    (fun k => if k = 1 then some [0] else none) rfl

/-- Retained-timestamp helper: folding SetRoot steps over any candidate list
keeps the held root's timestamp equal to the maximum of the starting held
timestamp and all candidate timestamps. -/
theorem applyRoots_time (rs : List Root) :
    ∀ (c : Container) (held : Root), c.root = some held →
      (applyRoots c rs).root.map Root.Time =
        some (List.foldl max held.Time (rs.map Root.Time)) := by
  induction rs with
  | nil =>
    intro c held h
    simp [applyRoots, h]
  | cons r rest ih =>
    intro c held h
    have hstep : (setRoot1 c r).root = some (if held.Time < r.Time then r else held) := by
      simp only [setRoot1, Container.SetRoot, h]
      by_cases hlt : held.Time < r.Time
      · simp only [if_pos hlt]
      · simp only [if_neg hlt]
        exact h
    have happ : applyRoots c (r :: rest) = applyRoots (setRoot1 c r) rest := rfl
    rw [happ, ih (setRoot1 c r) _ hstep]
    have hmax : (if held.Time < r.Time then r else held).Time = max held.Time r.Time := by
      by_cases hlt : held.Time < r.Time
      · rw [if_pos hlt]
        omega
      · rw [if_neg hlt]
        omega
    rw [hmax]
    rfl

/-- Claim C4: root monotonic acceptance — SetRoot on a non-nil candidate
replaces the held root iff no root is held or the candidate's timestamp is
strictly greater, reports whether replacement occurred and touches nothing
else; across any sequence of SetRoot calls from a rootless container the
retained root's timestamp is the maximum timestamp seen so far. -/
theorem c4_root_monotonic :
    (∀ (c : Container) (r : Root) (c' : Container) (ok : Bool),
      Container.SetRoot c (some r) = some (c', ok) →
        ((ok = true ↔ c.root = none ∨ ∃ held, c.root = some held ∧ held.Time < r.Time) ∧
          c'.root = (if ok then some r else c.root) ∧ c'.db = c.db)) ∧
    (∀ (db : DB Data) (r : Root) (rs : List Root),
      (applyRoots ⟨db, none⟩ (r :: rs)).root.map Root.Time =
        some (List.foldl max r.Time (rs.map Root.Time))) := by
  constructor
  · intro c r c' ok h
    cases hr : c.root with
    | none =>
      simp only [Container.SetRoot, hr, Option.some.injEq, Prod.mk.injEq] at h
      obtain ⟨rfl, rfl⟩ := h
      refine ⟨by simp, by simp, rfl⟩
    | some held =>
      simp only [Container.SetRoot, hr] at h
      by_cases hlt : held.Time < r.Time
      · simp only [if_pos hlt, Option.some.injEq, Prod.mk.injEq] at h
        obtain ⟨rfl, rfl⟩ := h
        refine ⟨by simp [hr, hlt], by simp, rfl⟩
      · simp only [if_neg hlt, Option.some.injEq, Prod.mk.injEq] at h
        obtain ⟨rfl, rfl⟩ := h
        refine ⟨?_, by simp [hr], rfl⟩
        simp only [hr, Bool.false_eq_true, false_iff]
        push_neg
        refine ⟨by simp, ?_⟩
        intro held2 hh2
        cases hh2
        exact not_lt.mp hlt
  · intro db r rs
    have h0 : (setRoot1 ⟨db, none⟩ r).root = some r := rfl
    have happ : applyRoots ⟨db, none⟩ (r :: rs) = applyRoots (setRoot1 ⟨db, none⟩ r) rs := rfl
    rw [happ, applyRoots_time rs _ r h0]

theorem c4_root_monotonic_witness :
    ((true = true ↔ (cW.root = none ∨ ∃ held, cW.root = some held ∧ held.Time < rootC3.Time)) ∧
      ({ cW with root := some rootC3 } : Container).root =
        (if true then some rootC3 else cW.root) ∧
      ({ cW with root := some rootC3 } : Container).db = cW.db) ∧
    (applyRoots ⟨NewDB, none⟩ [rootC3]).root.map Root.Time =
      some (List.foldl max rootC3.Time ([].map Root.Time)) :=
  ⟨c4_root_monotonic.1 cW rootC3 { cW with root := some rootC3 } true rfl,
    c4_root_monotonic.2 NewDB rootC3 []⟩

/-- Claim C10: tag parsing edge case — for the tag "href,schema=" the token
`schema=` splits into exactly two parts, so tagSchemaName returns the empty
name with no error (not MissingSchemaName); consequently schemaByTag on such a
tag, with a root held whose registry lacks the empty name, proceeds to the
registry lookup and fails with the unregistered-schema error for "". -/
theorem c10_empty_schema_name :
    tagSchemaName "href,schema=" = Except.ok "" ∧
    (∀ (c : Container) (r : Root), c.root = some r →
      List.lookup "" r.registry = none →
      Container.schemaByTag c "href,schema=" = Except.error (Err.unregisteredSchema "")) := by
  constructor
  · rfl
  · intro c r h hl
    simp only [Container.schemaByTag,
      show tagSchemaName "href,schema=" = Except.ok "" from rfl, h, hl]

theorem c10_empty_schema_name_witness :
    Container.schemaByTag cTagW "href,schema=" = Except.error (Err.unregisteredSchema "") :=
  c10_empty_schema_name.2 cTagW ⟨0, 0, 0, []⟩ rfl rfl

/-- Claim C8 counterexample: Want on a container holding no root returns the
Go zero values — a nil want map and a nil error — not a made empty map; the
result is (nil, nil), which differs from (Some emptySet, Ok). -/
theorem c8_want_no_root_counterexample :
    Container.Want 1 cNoRoot = some ((none, none), cNoRoot) ∧
    Container.Want 1 cNoRoot ≠ some ((some (∅ : WantSet), none), cNoRoot) := by
  refine ⟨rfl, ?_⟩
  intro heq
  rw [show Container.Want 1 cNoRoot = some ((none, none), cNoRoot) from rfl] at heq
  simp at heq

/-- Claim C8 (amended): top-level Want with no current root held returns a nil
want map (which reads as the empty set) and no error — in particular not the
(nil map, error) failure shape. -/
theorem c8_want_no_root_amended (fuel : Nat) (c : Container) (h : c.root = none) :
    Container.Want fuel c = some ((none, none), c) := by
  rw [Container.Want, h]

theorem c8_want_no_root_amended_witness :
    Container.Want 1 cNoRoot = some ((none, none), cNoRoot) :=
  c8_want_no_root_amended 1 cNoRoot rfl

/-- Claim C2 (code bug): at a store whose schema entry holds bytes that fail
to deserialize as a Schema while the object entry is present, want returns a
made (non-nil, empty) want map TOGETHER with the deserialization error: the
DeserializeRaw failure path (container.go line 145) returns directly instead
of passing through the Error label (line 208) that nils the map. -/
theorem c2_error_with_nonnil_map :
    Container.want 1 cBug 1 2 = some ((some (∅ : WantSet), some Err.deserializeError), cBug) ∧
    (some (∅ : WantSet) : Option WantSet) ≠ none := by
  exact ⟨rfl, by simp⟩

/-- addMissing only reads the database: the container it returns is the one it
was given. -/
theorem addMissing_state (keys : List Hash) :
    ∀ (c : Container) (w : WantSet), (Container.addMissing c w keys).2 = c := by
  induction keys with
  | nil => intro c w; rfl
  | cons key rest ih =>
    intro c w
    simp only [Container.addMissing, DB.GetS]
    cases c.db key with
    | none => exact ih _ _
    | some v => exact ih _ _

/-- The array loop threads the container through unchanged whenever the
recursive call does. -/
theorem wantArrayLoop_state (rec : WantStep)
    (hrec : ∀ c s o p, rec c s o = some p → p.2 = c) (schk : Hash)
    (refs : List Hash) :
    ∀ (c : Container) (acc : WantSet) (p : WantRes × Container),
      wantArrayLoop rec schk c refs acc = some p → p.2 = c := by
  induction refs with
  | nil =>
    intro c acc p h
    cases h
    rfl
  | cons ref rest ih =>
    intro c acc p h
    simp only [wantArrayLoop] at h
    cases hr : rec c schk ref with
    | none =>
      simp only [hr] at h
      exact Option.noConfusion h
    | some q =>
      obtain ⟨⟨w, e⟩, c'⟩ := q
      have hc : c' = c := hrec _ _ _ _ hr
      simp only [hr] at h
      cases e with
      | some e0 =>
        cases h
        exact hc
      | none =>
        rw [hc] at h
        exact ih _ _ _ h

/-- The field loop threads the container through unchanged whenever the
recursive call does. -/
theorem wantFields_state (rec : WantStep)
    (hrec : ∀ c s o p, rec c s o = some p → p.2 = c) (objd : Data)
    (fields : List StructField) :
    ∀ (c : Container) (acc : WantSet) (p : WantRes × Container),
      wantFields rec objd c fields acc = some p → p.2 = c := by
  induction fields with
  | nil =>
    intro c acc p h
    cases h
    rfl
  | cons sf rest ih =>
    intro c acc p h
    simp only [wantFields] at h
    by_cases htag : strContains (skyobjectTag sf) "href" = false
    · rw [if_pos htag] at h
      exact ih _ _ _ h
    · rw [if_neg htag] at h
      by_cases h1 : sf.«Type» = hrefTypeName
      · rw [if_pos h1] at h
        cases hd : deserializeFieldHash objd sf.Name with
        | none =>
          simp only [hd] at h
          cases h
          rfl
        | some ref =>
          simp only [hd] at h
          cases hsb : Container.schemaByTag c (skyobjectTag sf) with
          | error e =>
            simp only [hsb] at h
            cases h
            rfl
          | ok schk =>
            simp only [hsb] at h
            cases hr : rec c schk ref with
            | none =>
              simp only [hr] at h
              exact Option.noConfusion h
            | some q =>
              obtain ⟨⟨w, e⟩, c'⟩ := q
              have hc : c' = c := hrec _ _ _ _ hr
              simp only [hr] at h
              cases e with
              | some e0 =>
                cases h
                exact hc
              | none =>
                rw [hc] at h
                exact ih _ _ _ h
      · rw [if_neg h1] at h
        by_cases h2 : sf.«Type» = hrefArrayTypeName
        · rw [if_pos h2] at h
          cases hda : deserializeFieldHashArray objd sf.Name with
          | none =>
            simp only [hda] at h
            cases h
            rfl
          | some refs =>
            simp only [hda] at h
            cases hsb : Container.schemaByTag c (skyobjectTag sf) with
            | error e =>
              simp only [hsb] at h
              cases h
              rfl
            | ok schk =>
              simp only [hsb] at h
              cases hal : wantArrayLoop rec schk c refs acc with
              | none =>
                simp only [hal] at h
                exact Option.noConfusion h
              | some q =>
                obtain ⟨⟨w, e⟩, c'⟩ := q
                have hc : c' = c := wantArrayLoop_state rec hrec schk refs _ _ _ hal
                simp only [hal] at h
                cases e with
                | some e0 =>
                  cases h
                  exact hc
                | none =>
                  rw [hc] at h
                  exact ih _ _ _ h
        · rw [if_neg h2] at h
          by_cases h3 : sf.«Type» = dynamicHrefTypeName
          · rw [if_pos h3] at h
            cases hdd : deserializeFieldDynamic objd sf.Name with
            | none =>
              simp only [hdd] at h
              cases h
              rfl
            | some dh =>
              simp only [hdd] at h
              cases hr : rec c dh.Schema dh.ObjKey with
              | none =>
                simp only [hr] at h
                exact Option.noConfusion h
              | some q =>
                obtain ⟨⟨w, e⟩, c'⟩ := q
                have hc : c' = c := hrec _ _ _ _ hr
                simp only [hr] at h
                cases e with
                | some e0 =>
                  cases h
                  exact hc
                | none =>
                  rw [hc] at h
                  exact ih _ _ _ h
          · rw [if_neg h3] at h
            cases h
            rfl

/-- Container.want threads the container through unchanged: its runs only read
the store (every database access is a Get). -/
theorem want_state (fuel : Nat) :
    ∀ (c : Container) (schk objk : Hash) (p : WantRes × Container),
      Container.want fuel c schk objk = some p → p.2 = c := by
  induction fuel with
  | zero =>
    intro c schk objk p h
    exact Option.noConfusion h
  | succ fuel ih =>
    intro c schk objk p h
    simp only [Container.want, DB.GetS] at h
    cases hs : c.db schk with
    | none =>
      simp only [hs] at h
      cases h
      exact addMissing_state [objk] _ _
    | some schd =>
      simp only [hs] at h
      cases ho : c.db objk with
      | none =>
        simp only [ho] at h
        cases h
        rfl
      | some objd =>
        simp only [ho] at h
        cases hd : deserializeRawSchema schd with
        | none =>
          simp only [hd] at h
          cases h
          rfl
        | some s =>
          simp only [hd] at h
          exact wantFields_state (Container.want fuel) ih objd s.Fields _ _ _ h

/-- Claim C9: the resolver is read-only — for every starting pair and every
container state, a completed run of the recursive want (and of the top-level
Want), successful or failed, leaves the container (its store table and its
held root) exactly as it was. -/
theorem c9_resolver_readonly :
    (∀ (fuel : Nat) (c : Container) (schk objk : Hash) (p : WantRes × Container),
      Container.want fuel c schk objk = some p → p.2 = c) ∧
    (∀ (fuel : Nat) (c : Container) (p : WantRes × Container),
      Container.Want fuel c = some p → p.2 = c) := by
  refine ⟨fun fuel => want_state fuel, ?_⟩
  intro fuel c p h
  cases hr : c.root with
  | none =>
    simp only [Container.Want, hr] at h
    cases h
    rfl
  | some r =>
    simp only [Container.Want, hr] at h
    exact want_state fuel c r.Schema r.Root p h

theorem c9_resolver_readonly_witness :
    (((some (insert 12 (insert 11 (∅ : WantSet))), none), cW) : WantRes × Container).2 = cW :=
  c9_resolver_readonly.1 1 cW 11 12 ((some (insert 12 (insert 11 (∅ : WantSet))), none), cW) rfl

/-- Claim C1: shallow-gap policy — whenever the schema entry is absent, want
succeeds and returns exactly {schemaHash} if the object entry is present and
exactly {schemaHash, objectHash} if it is absent, never touching any
descendant of the object. -/
theorem c1_shallow_gap (fuel : Nat) (c : Container) (schk objk : Hash)
    (h : c.db schk = none) :
    Container.want (fuel + 1) c schk objk =
      some ((some (if c.db objk = none then ({schk, objk} : WantSet) else {schk}), none), c) := by
  have hset : insert objk (insert schk (∅ : WantSet)) = ({schk, objk} : WantSet) :=
    Finset.pair_comm objk schk
  cases ho : c.db objk with
  | none =>
    rw [if_pos rfl]
    simp only [Container.want, DB.GetS, h, Container.addMissing, ho, hset]
  | some v =>
    rw [if_neg (by simp)]
    simp only [Container.want, DB.GetS, h, Container.addMissing, ho]
    rfl

theorem c1_shallow_gap_witness :
    Container.want 1 cW 11 12 =
      some ((some (if cW.db 12 = none then ({11, 12} : WantSet) else {11}), none), cW) :=
  c1_shallow_gap 0 cW 11 12 rfl

/-- If every element of an array reference is fully present, the array loop
contributes nothing to the accumulator and no error. -/
theorem wantArrayLoop_complete (rec : WantStep)
    (recF : Container → Hash → Hash → Option Bool) (c : Container) (schk : Hash)
    (hrec : ∀ s o, recF c s o = some true →
      rec c s o = some ((some (∅ : WantSet), none), c))
    (refs : List Hash) :
    ∀ acc : WantSet, fullArrayLoop recF c schk refs = some true →
      wantArrayLoop rec schk c refs acc = some ((some acc, none), c) := by
  induction refs with
  | nil =>
    intro acc _
    rfl
  | cons ref rest ih =>
    intro acc hfull
    simp only [fullArrayLoop] at hfull
    cases hr : recF c schk ref with
    | none =>
      simp only [hr] at hfull
      exact Option.noConfusion hfull
    | some b =>
      cases b with
      | false =>
        simp only [hr] at hfull
        exact Bool.noConfusion (Option.some.inj hfull)
      | true =>
        simp only [hr] at hfull
        simp only [wantArrayLoop, hrec schk ref hr]
        rw [show mergeMaps acc ((some (∅ : WantSet)).getD ∅) = acc from by
          simp [mergeMaps]]
        exact ih acc hfull

/-- If every reference of every field is fully present, the field loop
contributes nothing to the accumulator and no error. -/
theorem wantFields_complete (rec : WantStep)
    (recF : Container → Hash → Hash → Option Bool) (c : Container) (objd : Data)
    (hrec : ∀ s o, recF c s o = some true →
      rec c s o = some ((some (∅ : WantSet), none), c))
    (fields : List StructField) :
    ∀ acc : WantSet, fullFields recF c objd fields = some true →
      wantFields rec objd c fields acc = some ((some acc, none), c) := by
  induction fields with
  | nil =>
    intro acc _
    rfl
  | cons sf rest ih =>
    intro acc hfull
    simp only [fullFields] at hfull
    simp only [wantFields]
    by_cases htag : strContains (skyobjectTag sf) "href" = false
    · rw [if_pos htag] at hfull ⊢
      exact ih acc hfull
    · rw [if_neg htag] at hfull ⊢
      by_cases h1 : sf.«Type» = hrefTypeName
      · rw [if_pos h1] at hfull ⊢
        cases hd : deserializeFieldHash objd sf.Name with
        | none =>
          simp only [hd] at hfull
          exact Bool.noConfusion (Option.some.inj hfull)
        | some ref =>
          cases hsb : Container.schemaByTag c (skyobjectTag sf) with
          | error e =>
            simp only [hd, hsb] at hfull
            exact Bool.noConfusion (Option.some.inj hfull)
          | ok schk =>
            simp only [hd, hsb] at hfull
            cases hr : recF c schk ref with
            | none =>
              simp only [hr] at hfull
              exact Option.noConfusion hfull
            | some b =>
              cases b with
              | false =>
                simp only [hr] at hfull
                exact Bool.noConfusion (Option.some.inj hfull)
              | true =>
                simp only [hr] at hfull
                simp only [hd, hsb, hrec schk ref hr, Option.getD_some, mergeMaps,
                  Finset.union_empty]
                exact ih acc hfull
      · rw [if_neg h1] at hfull ⊢
        by_cases h2 : sf.«Type» = hrefArrayTypeName
        · rw [if_pos h2] at hfull ⊢
          cases hda : deserializeFieldHashArray objd sf.Name with
          | none =>
            simp only [hda] at hfull
            exact Bool.noConfusion (Option.some.inj hfull)
          | some refs =>
            cases hsb : Container.schemaByTag c (skyobjectTag sf) with
            | error e =>
              simp only [hda, hsb] at hfull
              exact Bool.noConfusion (Option.some.inj hfull)
            | ok schk =>
              simp only [hda, hsb] at hfull
              cases hal : fullArrayLoop recF c schk refs with
              | none =>
                simp only [hal] at hfull
                exact Option.noConfusion hfull
              | some b =>
                cases b with
                | false =>
                  simp only [hal] at hfull
                  exact Bool.noConfusion (Option.some.inj hfull)
                | true =>
                  simp only [hal] at hfull
                  simp only [hda, hsb,
                    wantArrayLoop_complete rec recF c schk hrec refs acc hal,
                    Option.getD_some]
                  exact ih acc hfull
        · rw [if_neg h2] at hfull ⊢
          by_cases h3 : sf.«Type» = dynamicHrefTypeName
          · rw [if_pos h3] at hfull ⊢
            cases hdd : deserializeFieldDynamic objd sf.Name with
            | none =>
              simp only [hdd] at hfull
              exact Bool.noConfusion (Option.some.inj hfull)
            | some dh =>
              simp only [hdd] at hfull
              cases hr : recF c dh.Schema dh.ObjKey with
              | none =>
                simp only [hr] at hfull
                exact Option.noConfusion hfull
              | some b =>
                cases b with
                | false =>
                  simp only [hr] at hfull
                  exact Bool.noConfusion (Option.some.inj hfull)
                | true =>
                  simp only [hr] at hfull
                  simp only [hdd, hrec dh.Schema dh.ObjKey hr, Option.getD_some,
                    mergeMaps, Finset.union_empty]
                  exact ih acc hfull
          · rw [if_neg h3] at hfull
            exact Bool.noConfusion (Option.some.inj hfull)

/-- Want-completeness: whenever the full reachable graph of (schk, objk) is
present in the store and introspectable, want returns the empty want set and
no error. -/
theorem want_complete (fuel : Nat) :
    ∀ (c : Container) (schk objk : Hash),
      Container.fullGraphPresent fuel c schk objk = some true →
      Container.want fuel c schk objk = some ((some (∅ : WantSet), none), c) := by
  induction fuel with
  | zero =>
    intro c schk objk h
    exact Option.noConfusion h
  | succ fuel ih =>
    intro c schk objk h
    simp only [Container.fullGraphPresent] at h
    cases hs : c.db schk with
    | none =>
      simp only [hs] at h
      exact Bool.noConfusion (Option.some.inj h)
    | some schd =>
      simp only [hs] at h
      cases ho : c.db objk with
      | none =>
        simp only [ho] at h
        exact Bool.noConfusion (Option.some.inj h)
      | some objd =>
        simp only [ho] at h
        cases hd : deserializeRawSchema schd with
        | none =>
          simp only [hd] at h
          exact Bool.noConfusion (Option.some.inj h)
        | some s =>
          simp only [hd] at h
          simp only [Container.want, DB.GetS, hs, ho, hd]
          exact wantFields_complete (Container.want fuel)
            (Container.fullGraphPresent fuel) c objd
            (fun s' o' hf => ih c s' o' hf) s.Fields ∅ h

/-- Claim C3: plain-reference scenario and completeness — with S1, S2, O1
stored and O2 absent, Want returns exactly {O2} (key 4); with O2 inserted,
Want returns the empty set; and in general, whenever the full reachable graph
of (schk, objk) is present and introspectable, want returns the empty want
set with no error. -/
theorem c3_plain_scenario_and_completeness :
    (Container.Want 2 c3a).map Prod.fst = some (some ({4} : WantSet), none) ∧
    (Container.Want 2 c3b).map Prod.fst = some (some (∅ : WantSet), none) ∧
    (∀ (fuel : Nat) (c : Container) (schk objk : Hash),
      Container.fullGraphPresent fuel c schk objk = some true →
      Container.want fuel c schk objk = some ((some (∅ : WantSet), none), c)) :=
  ⟨by decide, by decide, fun fuel => want_complete fuel⟩

theorem c3_plain_scenario_and_completeness_witness :
    Container.want 2 c3b 1 2 = some ((some (∅ : WantSet), none), c3b) :=
  c3_plain_scenario_and_completeness.2.2 2 c3b 1 2 (by decide)

end Cxo
